import Mathlib

/-!
Verification development for the bytom account UTXO indexer
(blockchain/account/indexer.go) and the multisig parameter check
(protocol/vm/vmutil/script.go).

The Go code is shallowly embedded: hashes (bc.Hash) are naturals, byte
strings are lists of naturals, the key-value store is a function from
keys to optional values, and a write batch is a list of set/delete
operations applied in order (tendermint batches replay staged operations
in staging order on Write).
-/

/-! ## Bytes, keys, store and batches -/

/-- Byte strings are lists of naturals.  Go string keys built from raw
hash bytes are byte strings, not UTF-8 text. -/
abbrev Bytes := List Nat

/-- UTXOPreFix is the key namespace of account unspent outputs
(indexer.go line 22): the bytes of the four characters A, C, U, colon. -/
def UTXOPreFix : Bytes := [65, 67, 85, 58]

/-- walletkey is the singleton checkpoint key (indexer.go line 25):
the bytes of the ten characters of the word walletInfo. -/
def walletkey : Bytes := [119, 97, 108, 108, 101, 116, 73, 110, 102, 111]

/-- accountUTXOKey prepends the UTXO namespace to a name
(indexer.go lines 27-29). -/
def accountUTXOKey (name : Bytes) : Bytes := UTXOPreFix ++ name

/-- hashBytes models bc.Hash.Bytes: the byte serialization of a hash,
with hashes abstracted as naturals; it is injective, as the real
32-byte serialization is. -/
def hashBytes (h : Nat) : Bytes := [h]

/-- utxoKey is the store key of the persisted UTXO record of an output id:
accountUTXOKey applied to the raw hash bytes. -/
def utxoKey (oid : Nat) : Bytes := accountUTXOKey (hashBytes oid)

/-- Op is one staged write of a tendermint batch: a set or a delete. -/
inductive Op where
  | set (k : Bytes) (v : Bytes)
  | del (k : Bytes)
deriving DecidableEq

/-- Batch is the ordered list of staged writes. -/
abbrev Batch := List Op

/-- Store models the key-value database as a partial map. -/
abbrev Store := Bytes → Option Bytes

/-- applyOp applies one staged write to the store. -/
def applyOp (s : Store) : Op → Store
  | Op.set k v => fun k2 => if k2 = k then some v else s k2
  | Op.del k => fun k2 => if k2 = k then none else s k2

/-- applyBatch replays the staged writes in order, as batch.Write does. -/
def applyBatch (s : Store) (ops : Batch) : Store := ops.foldl applyOp s

/-- opDomKey is the key an operation touches. -/
def opDomKey : Op → Bytes
  | Op.set k _ => k
  | Op.del k => k

/-- writeAt gives the effect of one operation on one key: none when the
operation touches another key, otherwise the value the key ends with. -/
def writeAt (k : Bytes) : Op → Option (Option Bytes)
  | Op.set k2 v => if k2 = k then some (some v) else none
  | Op.del k2 => if k2 = k then some none else none

/-- lwStep folds one operation into the accumulated last write on a key. -/
def lwStep (k : Bytes) (acc : Option (Option Bytes)) (op : Op) : Option (Option Bytes) :=
  match writeAt k op with
  | some r => some r
  | none => acc

/-- lastWrite computes the last staged write touching a key, if any. -/
def lastWrite (k : Bytes) (ops : Batch) : Option (Option Bytes) :=
  ops.foldl (lwStep k) none

theorem foldl_lwStep (k : Bytes) (ops : Batch) :
    ∀ acc : Option (Option Bytes),
      ops.foldl (lwStep k) acc =
        match ops.foldl (lwStep k) none with
        | some r => some r
        | none => acc := by
  induction ops with
  | nil => intro acc; rfl
  | cons op rest ih =>
    intro acc
    simp only [List.foldl_cons]
    rw [ih (lwStep k acc op), ih (lwStep k none op)]
    cases h : rest.foldl (lwStep k) none with
    | some r => rfl
    | none =>
      simp only [lwStep]
      cases writeAt k op <;> rfl

theorem lwStep_none (k : Bytes) (op : Op) : lwStep k none op = writeAt k op := by
  cases h : writeAt k op <;> simp [lwStep, h]

theorem lastWrite_cons (k : Bytes) (op : Op) (rest : Batch) :
    lastWrite k (op :: rest) =
      match lastWrite k rest with
      | some r => some r
      | none => writeAt k op := by
  simp only [lastWrite, List.foldl_cons]
  rw [foldl_lwStep, lwStep_none]

theorem applyBatch_eq_lastWrite (s : Store) (ops : Batch) (k : Bytes) :
    applyBatch s ops k =
      match lastWrite k ops with
      | some r => r
      | none => s k := by
  induction ops generalizing s with
  | nil => rfl
  | cons op rest ih =>
    simp only [applyBatch, List.foldl_cons] at *
    rw [ih (applyOp s op), lastWrite_cons]
    cases h : lastWrite k rest with
    | some r => rfl
    | none =>
      cases op with
      | set k2 v =>
        simp only [applyOp, writeAt]
        by_cases hk : k2 = k
        · subst hk; simp
        · simp [hk, Ne.symm hk]
      | del k2 =>
        simp only [applyOp, writeAt]
        by_cases hk : k2 = k
        · subst hk; simp
        · simp [hk, Ne.symm hk]

theorem lastWrite_append (k : Bytes) (l1 l2 : Batch) :
    lastWrite k (l1 ++ l2) =
      match lastWrite k l2 with
      | some r => some r
      | none => lastWrite k l1 := by
  simp only [lastWrite, List.foldl_append]
  rw [foldl_lwStep k l2 (l1.foldl (lwStep k) none)]

theorem lastWrite_nil (k : Bytes) : lastWrite k ([] : Batch) = none := rfl

theorem lastWrite_eq_none_of_keys (k : Bytes) (ops : Batch)
    (h : ∀ op ∈ ops, opDomKey op ≠ k) : lastWrite k ops = none := by
  induction ops with
  | nil => rfl
  | cons op rest ih =>
    rw [lastWrite_cons, ih (fun o ho => h o (List.mem_cons_of_mem _ ho))]
    have hop := h op (List.mem_cons_self _ _)
    cases op with
    | set k2 v => simp only [opDomKey] at hop; simp [writeAt, hop]
    | del k2 => simp only [opDomKey] at hop; simp [writeAt, hop]

/-! ## Data model of blocks, transactions and the account annotation -/

/-- WalletInfo is the checkpoint: last indexed height and block hash
(indexer.go lines 31-35). -/
structure WalletInfo where
  height : Nat
  hash : Nat
deriving DecidableEq

/-- OutputEntry is the data of a resolved spendable output entry
(a bc.Output in the transaction entry map): its asset amount, control
program code, and source linkage (Source.Ref, Source.Position, Data). -/
structure OutputEntry where
  assetID : Nat
  amount : Nat
  controlProgram : Bytes
  sourceRef : Nat
  sourcePos : Nat
  refData : Nat
deriving DecidableEq

/-- SpendInput is one input for which tx.Spend succeeded: the spent
output id, and the entry map lookup of that id as a bc.Output (none when
the entry is not a spendable output, the not-ok branch). -/
structure SpendInput where
  spentOutputId : Nat
  resolved : Option OutputEntry
deriving DecidableEq

/-- TxOutput is one legacy transaction output paired with its result
entry: the legacy asset amount and control program, the parallel
ResultIds entry for its position, and the entry map lookup of that
result id as a bc.Output (none for a retirement). -/
structure TxOutput where
  assetID : Nat
  amount : Nat
  controlProgram : Bytes
  resultId : Nat
  resEntry : Option OutputEntry
deriving DecidableEq

/-- Tx is a transaction: its id, its inputs as seen through tx.Spend
(none when Spend errors, for a non-spend input such as an issuance),
and its outputs. -/
structure Tx where
  id : Nat
  inputs : List (Option SpendInput)
  outputs : List TxOutput
deriving DecidableEq

/-- Block is a legacy block header plus transactions; hashSelf models
the value of the block.Hash() method. -/
structure Block where
  height : Nat
  previousBlockHash : Nat
  hashSelf : Nat
  transactions : List Tx
deriving DecidableEq

/-- controlProgram is the registry record attached to a watched control
program (accountID, key index, change flag), as deserialized from the
account database (account.go controlProgram struct). -/
structure controlProgram where
  accountID : String
  keyIndex : Nat
  change : Bool
deriving DecidableEq

/-- Manager carries the two external lookups loadAccountInfo performs:
the control-program registry read (m.db.Get(accountCPKey(sha3(program))),
modelled as a lookup keyed directly by the program bytes since the hash
is collision resistant, returning none when the record is missing or
fails to deserialize) and the account existence check
(m.db.Get(accountKey(id)) != nil). -/
structure Manager where
  cpRegistry : Bytes → Option controlProgram
  accountExists : String → Bool

/-- rawOutput is the transient per-block output record
(indexer.go lines 219-228). -/
structure rawOutput where
  OutputID : Nat
  AssetID : Nat
  Amount : Nat
  ControlProgram : Bytes
  txHash : Nat
  outputIndex : Nat
  sourceID : Nat
  sourcePos : Nat
  refData : Nat
deriving DecidableEq

/-- accountOutput is a rawOutput annotated with account identity
(indexer.go lines 230-235). -/
structure accountOutput where
  raw : rawOutput
  AccountID : String
  keyIndex : Nat
  change : Bool
deriving DecidableEq

/-- UTXO is the persisted account unspent output record
(indexer.go lines 151-163). -/
structure UTXO where
  OutputID : Bytes
  AssetID : Bytes
  Amount : Nat
  AccountID : String
  ProgramIndex : Nat
  Program : Bytes
  SourceID : Bytes
  SourcePos : Nat
  RefData : Bytes
  Change : Bool
deriving DecidableEq

/-- strBytes is the byte serialization of a Go string field. -/
def strBytes (s : String) : Bytes := s.data.map Char.toNat

/-- encodeUTXO models json.Marshal of a UTXO record: a deterministic
byte serialization of all its fields (the exact JSON syntax is
irrelevant; only determinism matters for the theorems). -/
def encodeUTXO (u : UTXO) : Bytes :=
  u.OutputID.length :: u.OutputID ++ u.AssetID.length :: u.AssetID ++
  [u.Amount] ++ (strBytes u.AccountID).length :: strBytes u.AccountID ++
  [u.ProgramIndex] ++ u.Program.length :: u.Program ++
  u.SourceID.length :: u.SourceID ++ [u.SourcePos] ++
  u.RefData.length :: u.RefData ++ [cond u.Change 1 0]

/-- encodeWalletInfo models json.Marshal of the checkpoint record. -/
def encodeWalletInfo (i : WalletInfo) : Bytes := [i.height, i.hash]

/-- decodeWalletInfo models json.Unmarshal of the checkpoint record:
it inverts encodeWalletInfo and fails on anything else. -/
def decodeWalletInfo : Bytes → Option WalletInfo
  | [h, s] => some ⟨h, s⟩
  | _ => none

/-- mkUTXO is the field mapping from an annotated output to the
persisted UTXO record (indexer.go lines 396-406). -/
def mkUTXO (ao : accountOutput) : UTXO :=
  { OutputID := hashBytes ao.raw.OutputID
  , AssetID := hashBytes ao.raw.AssetID
  , Amount := ao.raw.Amount
  , AccountID := ao.AccountID
  , ProgramIndex := ao.keyIndex
  , Program := ao.raw.ControlProgram
  , SourceID := hashBytes ao.raw.sourceID
  , SourcePos := ao.raw.sourcePos
  , RefData := hashBytes ao.raw.refData
  , Change := ao.change }

/-- annotateOut attaches a registry record to a raw output
(indexer.go lines 377-382). -/
def annotateOut (out : rawOutput) (cp : controlProgram) : accountOutput :=
  ⟨out, cp.accountID, cp.keyIndex, cp.change⟩

/-- loadAccountInfo annotates raw outputs with account data
(indexer.go lines 346-388): an output is kept exactly when its control
program has a registry record and the recorded account still exists;
every other output is dropped, and no error is ever reported.  The Go
code groups outputs by identical script purely to perform each registry
lookup once and iterates that map in unspecified order, so the
embedding performs the lookup per output, which yields the same
annotated outputs. -/
def loadAccountInfo (m : Manager) (outs : List rawOutput) : List accountOutput :=
  outs.filterMap fun out =>
    (m.cpRegistry out.ControlProgram).bind fun cp =>
      if m.accountExists cp.accountID then some (annotateOut out cp) else none

/-- upsertConfirmedAccountOutputs stages one set per annotated output,
keyed by the serialized output id under the UTXO namespace, with the
serialized UTXO record as value (indexer.go lines 393-416).
json.Marshal of a UTXO value cannot fail, so the error path that would
abort the staging loop is dead and the function is total. -/
def upsertConfirmedAccountOutputs (outs : List accountOutput) : Batch :=
  outs.map fun ao =>
    Op.set (accountUTXOKey (mkUTXO ao).OutputID) (encodeUTXO (mkUTXO ao))

/-- prevoutDBKeys collects the spent output id of every input whose
tx.Spend succeeds, across the given transactions
(indexer.go lines 332-341). -/
def prevoutDBKeys (txs : List Tx) : List Nat :=
  txs.flatMap fun tx => tx.inputs.filterMap fun i => Option.map SpendInput.spentOutputId i

/-- withIndex pairs list elements with their positions starting at n. -/
def withIndex : Nat → List TxOutput → List (Nat × TxOutput)
  | _, [] => []
  | n, x :: xs => (n, x) :: withIndex (n + 1) xs

/-- createdRawOutputs extracts the raw outputs a block creates
(indexer.go lines 302-323): for every transaction output whose result
entry resolves to a bc.Output, a rawOutput carrying the result id as
OutputID (legacy tx.OutputID(j) returns ResultIds[j]), the legacy asset
amount and control program, and the entry source linkage; retirement
outputs (no bc.Output entry) are skipped. -/
def createdRawOutputs (b : Block) : List rawOutput :=
  b.transactions.flatMap fun tx =>
    (withIndex 0 tx.outputs).filterMap fun jo =>
      match jo.2.resEntry with
      | none => none
      | some e => some
          { OutputID := jo.2.resultId
          , AssetID := jo.2.assetID
          , Amount := jo.2.amount
          , ControlProgram := jo.2.controlProgram
          , txHash := tx.id
          , outputIndex := jo.1
          , sourceID := e.sourceRef
          , sourcePos := e.sourcePos
          , refData := e.refData }

/-- createdEntryIds lists the result ids of a block's outputs whose
entry resolves to a bc.Output, in block order: exactly the ids the
rollback delete loop walks (indexer.go lines 278-288). -/
def createdEntryIds (b : Block) : List Nat :=
  b.transactions.flatMap fun tx =>
    tx.outputs.filterMap fun out =>
      if out.resEntry.isSome then some out.resultId else none

/-- spentRawOf builds the rawOutput resurrected for one resolved spend
(indexer.go lines 258-266): OutputID is the spent output id, data comes
from the resolved entry, txHash from the spending transaction, and
outputIndex is left zero as in the Go struct literal. -/
def spentRawOf (tx : Tx) (sp : SpendInput) (d : OutputEntry) : rawOutput :=
  { OutputID := sp.spentOutputId
  , AssetID := d.assetID
  , Amount := d.amount
  , ControlProgram := d.controlProgram
  , txHash := tx.id
  , outputIndex := 0
  , sourceID := d.sourceRef
  , sourcePos := d.sourcePos
  , refData := d.refData }

/-- spentRawOutputs extracts the raw outputs a block spends, skipping
inputs whose Spend errors and spends whose entry lookup is not a
bc.Output (indexer.go lines 244-269). -/
def spentRawOutputs (b : Block) : List rawOutput :=
  b.transactions.flatMap fun tx =>
    tx.inputs.filterMap fun i =>
      i.bind fun sp => sp.resolved.map fun d => spentRawOf tx sp d

/-- BuildAccountUTXOs is the forward application of one block
(indexer.go lines 293-330): it stages a delete for every spent output
id, then a set for every annotated created output. -/
def BuildAccountUTXOs (m : Manager) (b : Block) : Batch :=
  ((prevoutDBKeys b.transactions).map fun oid =>
    Op.del (accountUTXOKey (hashBytes oid))) ++
  upsertConfirmedAccountOutputs (loadAccountInfo m (createdRawOutputs b))

/-- ReverseAccountUTXOs is the rollback of one block
(indexer.go lines 238-290): it stages a set resurrecting every
annotated resolved spent output, then a delete for every created output
whose entry resolves to a bc.Output. -/
def ReverseAccountUTXOs (m : Manager) (b : Block) : Batch :=
  upsertConfirmedAccountOutputs (loadAccountInfo m (spentRawOutputs b)) ++
  ((createdEntryIds b).map fun oid => Op.del (accountUTXOKey (hashBytes oid)))

/-! ## Key and membership lemmas -/

theorem utxoKey_inj {a b : Nat} (h : utxoKey a = utxoKey b) : a = b := by
  simpa [utxoKey, accountUTXOKey, hashBytes, UTXOPreFix] using h

theorem utxoKey_ne_walletkey (a : Nat) : utxoKey a ≠ walletkey := by
  simp [utxoKey, accountUTXOKey, hashBytes, UTXOPreFix, walletkey]

theorem mem_prevoutDBKeys {txs : List Tx} {oid : Nat} :
    oid ∈ prevoutDBKeys txs ↔
      ∃ tx ∈ txs, ∃ sp : SpendInput, some sp ∈ tx.inputs ∧ sp.spentOutputId = oid := by
  simp only [prevoutDBKeys, List.mem_flatMap, List.mem_filterMap]
  constructor
  · rintro ⟨tx, htx, i, hi, hmap⟩
    cases i with
    | none => simp at hmap
    | some sp =>
      refine ⟨tx, htx, sp, hi, ?_⟩
      simpa [Option.map] using hmap
  · rintro ⟨tx, htx, sp, hsp, hid⟩
    exact ⟨tx, htx, some sp, hsp, by simpa [Option.map] using hid⟩

theorem mem_createdEntryIds {b : Block} {oid : Nat} :
    oid ∈ createdEntryIds b ↔
      ∃ tx ∈ b.transactions, ∃ out ∈ tx.outputs,
        out.resEntry.isSome = true ∧ out.resultId = oid := by
  simp only [createdEntryIds, List.mem_flatMap, List.mem_filterMap]
  constructor
  · rintro ⟨tx, htx, out, hout, hcond⟩
    by_cases he : out.resEntry.isSome
    · exact ⟨tx, htx, out, hout, he, by simpa [he] using hcond⟩
    · simp [he] at hcond
  · rintro ⟨tx, htx, out, hout, he, hid⟩
    exact ⟨tx, htx, out, hout, by simp [he, hid]⟩

theorem mem_withIndex {n : Nat} {l : List TxOutput} {p : Nat × TxOutput}
    (h : p ∈ withIndex n l) : p.2 ∈ l := by
  induction l generalizing n with
  | nil => simp [withIndex] at h
  | cons x xs ih =>
    simp only [withIndex, List.mem_cons] at h
    rcases h with h | h
    · subst h; exact List.mem_cons_self _ _
    · exact List.mem_cons_of_mem _ (ih h)

theorem createdRawOutputs_mem {b : Block} {raw : rawOutput}
    (h : raw ∈ createdRawOutputs b) :
    ∃ tx ∈ b.transactions, ∃ out ∈ tx.outputs, ∃ e : OutputEntry,
      out.resEntry = some e ∧ raw.OutputID = out.resultId ∧
      raw.ControlProgram = out.controlProgram := by
  simp only [createdRawOutputs, List.mem_flatMap, List.mem_filterMap] at h
  obtain ⟨tx, htx, jo, hjo, hmk⟩ := h
  cases he : jo.2.resEntry with
  | none => rw [he] at hmk; simp at hmk
  | some e =>
    rw [he] at hmk
    simp only [Option.some.injEq] at hmk
    subst hmk
    exact ⟨tx, htx, jo.2, mem_withIndex hjo, e, he, rfl, rfl⟩

theorem createdRawOutputs_id_mem {b : Block} {raw : rawOutput}
    (h : raw ∈ createdRawOutputs b) : raw.OutputID ∈ createdEntryIds b := by
  obtain ⟨tx, htx, out, hout, e, he, hid, _⟩ := createdRawOutputs_mem h
  exact mem_createdEntryIds.mpr ⟨tx, htx, out, hout, by simp [he], hid.symm⟩

theorem mem_spentRawOutputs {b : Block} {raw : rawOutput} :
    raw ∈ spentRawOutputs b ↔
      ∃ tx ∈ b.transactions, ∃ sp : SpendInput, ∃ d : OutputEntry,
        some sp ∈ tx.inputs ∧ sp.resolved = some d ∧ raw = spentRawOf tx sp d := by
  simp only [spentRawOutputs, List.mem_flatMap, List.mem_filterMap,
    Option.bind_eq_some, Option.map_eq_some']
  constructor
  · rintro ⟨tx, htx, i, hi, sp, rfl, d, hd, rfl⟩
    exact ⟨tx, htx, sp, d, hi, hd, rfl⟩
  · rintro ⟨tx, htx, sp, d, hsp, hd, rfl⟩
    exact ⟨tx, htx, some sp, hsp, sp, rfl, d, hd, rfl⟩

theorem loadAccountInfo_spec {m : Manager} {outs : List rawOutput} {ao : accountOutput} :
    ao ∈ loadAccountInfo m outs ↔
      ∃ out ∈ outs, ∃ cp : controlProgram,
        m.cpRegistry out.ControlProgram = some cp ∧
        m.accountExists cp.accountID = true ∧ ao = annotateOut out cp := by
  simp only [loadAccountInfo, List.mem_filterMap, Option.bind_eq_some]
  constructor
  · rintro ⟨out, hout, cp, hr, hif⟩
    by_cases he : m.accountExists cp.accountID
    · rw [if_pos he] at hif
      simp only [Option.some.injEq] at hif
      exact ⟨out, hout, cp, hr, he, hif.symm⟩
    · rw [if_neg he] at hif; simp at hif
  · rintro ⟨out, hout, cp, hr, he, hao⟩
    exact ⟨out, hout, cp, hr, by rw [if_pos he, hao]⟩

/-! ## Effect of the staged segments on single keys -/

theorem utxoKey_def (oid : Nat) : accountUTXOKey (hashBytes oid) = utxoKey oid := rfl

theorem lastWrite_map_del (k : Bytes) (ids : List Nat) :
    lastWrite k (ids.map fun oid => Op.del (accountUTXOKey (hashBytes oid))) =
      if k ∈ ids.map utxoKey then some none else none := by
  induction ids with
  | nil => simp [lastWrite_nil]
  | cons o os ih =>
    rw [List.map_cons, lastWrite_cons, ih, List.map_cons]
    by_cases hk : k ∈ os.map utxoKey
    · rw [if_pos hk, if_pos (List.mem_cons_of_mem _ hk)]
    · rw [if_neg hk]
      by_cases h2 : utxoKey o = k
      · rw [if_pos (h2 ▸ List.mem_cons_self _ _)]
        show writeAt k (Op.del (accountUTXOKey (hashBytes o))) = some none
        simp only [writeAt]
        rw [utxoKey_def o, if_pos h2]
      · have hne : k ∉ utxoKey o :: os.map utxoKey := by
          intro h
          rcases List.mem_cons.mp h with h | h
          · exact h2 h.symm
          · exact hk h
        rw [if_neg hne]
        show writeAt k (Op.del (accountUTXOKey (hashBytes o))) = none
        simp only [writeAt]
        rw [utxoKey_def o, if_neg h2]

theorem lastWrite_upsert_none (k : Bytes) (l : List accountOutput)
    (h : ∀ ao ∈ l, utxoKey ao.raw.OutputID ≠ k) :
    lastWrite k (upsertConfirmedAccountOutputs l) = none := by
  apply lastWrite_eq_none_of_keys
  intro op hop
  obtain ⟨ao, hao, rfl⟩ := List.mem_map.mp hop
  exact h ao hao

theorem upsert_cons (ao : accountOutput) (rest : List accountOutput) :
    upsertConfirmedAccountOutputs (ao :: rest) =
      Op.set (accountUTXOKey (mkUTXO ao).OutputID) (encodeUTXO (mkUTXO ao)) ::
        upsertConfirmedAccountOutputs rest := rfl

theorem lastWrite_upsert_some (k : Bytes) (v : Bytes) (l : List accountOutput)
    (hex : ∃ ao ∈ l, utxoKey ao.raw.OutputID = k)
    (hall : ∀ ao ∈ l, utxoKey ao.raw.OutputID = k → encodeUTXO (mkUTXO ao) = v) :
    lastWrite k (upsertConfirmedAccountOutputs l) = some (some v) := by
  induction l with
  | nil => simp at hex
  | cons ao rest ih =>
    rw [upsert_cons, lastWrite_cons]
    by_cases hrest : ∃ a ∈ rest, utxoKey a.raw.OutputID = k
    · rw [ih hrest (fun a ha hk => hall a (List.mem_cons_of_mem _ ha) hk)]
    · have hnone : lastWrite k (upsertConfirmedAccountOutputs rest) = none := by
        apply lastWrite_upsert_none
        intro a ha hk
        exact hrest ⟨a, ha, hk⟩
      rw [hnone]
      have hhead : utxoKey ao.raw.OutputID = k := by
        rcases hex with ⟨a, ha, hk⟩
        rcases List.mem_cons.mp ha with h | h
        · subst h; exact hk
        · exact absurd ⟨a, h, hk⟩ hrest
      have hv := hall ao (List.mem_cons_self _ _) hhead
      have hkey : accountUTXOKey (mkUTXO ao).OutputID = k := hhead
      show writeAt k (Op.set (accountUTXOKey (mkUTXO ao).OutputID)
        (encodeUTXO (mkUTXO ao))) = some (some v)
      simp only [writeAt]
      rw [if_pos hkey, hv]

/-! ## The value a resolved spend resurrects -/

/-- spentUpsertVal is the store value the rollback of a spend input
re-creates: some serialized UTXO when the spend resolves to a bc.Output
whose program is registered to an existing account, none otherwise.
The spending transaction's id does not enter the persisted record, so a
placeholder transaction is used. -/
def spentUpsertVal (m : Manager) (sp : SpendInput) : Option Bytes :=
  sp.resolved.bind fun d =>
    (m.cpRegistry d.controlProgram).bind fun cp =>
      if m.accountExists cp.accountID then
        some (encodeUTXO (mkUTXO (annotateOut (spentRawOf ⟨0, [], []⟩ sp d) cp)))
      else none

theorem spentUpsertVal_eq (m : Manager) (tx : Tx) (sp : SpendInput)
    (d : OutputEntry) (cp : controlProgram) (hd : sp.resolved = some d)
    (hr : m.cpRegistry d.controlProgram = some cp)
    (he : m.accountExists cp.accountID = true) :
    spentUpsertVal m sp =
      some (encodeUTXO (mkUTXO (annotateOut (spentRawOf tx sp d) cp))) := by
  simp only [spentUpsertVal, hd, hr, Option.some_bind, if_pos he]
  rfl

theorem spentUpsertVal_some {m : Manager} {sp : SpendInput} {v : Bytes}
    (h : spentUpsertVal m sp = some v) :
    ∃ d cp, sp.resolved = some d ∧ m.cpRegistry d.controlProgram = some cp ∧
      m.accountExists cp.accountID = true ∧
      ∀ tx : Tx, v = encodeUTXO (mkUTXO (annotateOut (spentRawOf tx sp d) cp)) := by
  simp only [spentUpsertVal, Option.bind_eq_some] at h
  obtain ⟨d, hd, cp, hr, hif⟩ := h
  by_cases he : m.accountExists cp.accountID
  · rw [if_pos he] at hif
    refine ⟨d, cp, hd, hr, he, fun tx => ?_⟩
    cases hif
    rfl
  · rw [if_neg he] at hif; simp at hif

theorem resurrect_elem_spec {m : Manager} {b : Block} {ao : accountOutput}
    (h : ao ∈ loadAccountInfo m (spentRawOutputs b)) :
    ∃ tx ∈ b.transactions, ∃ sp : SpendInput, some sp ∈ tx.inputs ∧
      ao.raw.OutputID = sp.spentOutputId ∧
      spentUpsertVal m sp = some (encodeUTXO (mkUTXO ao)) := by
  obtain ⟨out, hout, cp, hr, he, rfl⟩ := loadAccountInfo_spec.mp h
  obtain ⟨tx, htx, sp, d, hsp, hd, rfl⟩ := mem_spentRawOutputs.mp hout
  refine ⟨tx, htx, sp, hsp, rfl, ?_⟩
  exact spentUpsertVal_eq m tx sp d cp hd (by simpa [spentRawOf] using hr) he

theorem resurrect_elem_exists {m : Manager} {b : Block} {tx : Tx}
    {sp : SpendInput} {v : Bytes} (htx : tx ∈ b.transactions)
    (hsp : some sp ∈ tx.inputs) (hv : spentUpsertVal m sp = some v) :
    ∃ ao ∈ loadAccountInfo m (spentRawOutputs b),
      ao.raw.OutputID = sp.spentOutputId ∧ encodeUTXO (mkUTXO ao) = v := by
  obtain ⟨d, cp, hd, hr, he, hval⟩ := spentUpsertVal_some hv
  refine ⟨annotateOut (spentRawOf tx sp d) cp, ?_, rfl, (hval tx).symm⟩
  exact loadAccountInfo_spec.mpr
    ⟨spentRawOf tx sp d, mem_spentRawOutputs.mpr ⟨tx, htx, sp, d, hsp, hd, rfl⟩,
     cp, by simpa [spentRawOf] using hr, he, rfl⟩

theorem build_ins_key {m : Manager} {b : Block} {ao : accountOutput}
    (h : ao ∈ loadAccountInfo m (createdRawOutputs b)) :
    ao.raw.OutputID ∈ createdEntryIds b := by
  obtain ⟨out, hout, cp, _, _, rfl⟩ := loadAccountInfo_spec.mp h
  exact createdRawOutputs_id_mem hout

/-! ## One forward application and one rollback, as committed -/

theorem mem_filterMap_id {l : List (Option SpendInput)} {sp : SpendInput} :
    sp ∈ l.filterMap id ↔ some sp ∈ l := by
  simp [List.mem_filterMap]

/-- applyBlock is one forward application of a block as WalletUpdate
commits it (indexer.go lines 119-127): the staged BuildAccountUTXOs
delta followed by the checkpoint set to the block's height and hash,
applied atomically. -/
def applyBlock (m : Manager) (b : Block) (s : WalletInfo × Store) : WalletInfo × Store :=
  (⟨b.height, b.hashSelf⟩,
    applyBatch s.2 (BuildAccountUTXOs m b ++
      [Op.set walletkey (encodeWalletInfo ⟨b.height, b.hashSelf⟩)]))

/-- rollbackBlock is one rollback of a block as WalletUpdate commits it
(indexer.go lines 90-106): the staged ReverseAccountUTXOs delta
followed by the checkpoint set to the parent position, applied
atomically. -/
def rollbackBlock (m : Manager) (b : Block) (s : WalletInfo × Store) : WalletInfo × Store :=
  (⟨b.height - 1, b.previousBlockHash⟩,
    applyBatch s.2 (ReverseAccountUTXOs m b ++
      [Op.set walletkey (encodeWalletInfo ⟨b.height - 1, b.previousBlockHash⟩)]))

theorem lastWrite_append_wset (k : Bytes) (l : Batch) (v : Bytes) (hk : k ≠ walletkey) :
    lastWrite k (l ++ [Op.set walletkey v]) = lastWrite k l := by
  rw [lastWrite_append]
  have hone : lastWrite k [Op.set walletkey v] = none := by
    rw [lastWrite_cons, lastWrite_nil]
    show writeAt k (Op.set walletkey v) = none
    simp only [writeAt]
    rw [if_neg (fun h => hk h.symm)]
  rw [hone]

theorem lastWrite_append_wset_self (l : Batch) (v : Bytes) :
    lastWrite walletkey (l ++ [Op.set walletkey v]) = some (some v) := by
  rw [lastWrite_append]
  have hone : lastWrite walletkey [Op.set walletkey v] = some (some v) := by
    rw [lastWrite_cons, lastWrite_nil]
    show writeAt walletkey (Op.set walletkey v) = some (some v)
    simp [writeAt]
  rw [hone]

/-- C2: for every block whose previousBlockHash equals the current
checkpoint's hash and whose height extends the checkpoint, and for
every store state consistent with that checkpoint (the block's created
output ids are absent, each output the block spends is present exactly
when its spend resolves to a registered output and then holds the
canonical serialized record, and the checkpoint record holds the
serialized checkpoint), applying the block with BuildAccountUTXOs plus
the checkpoint advance and then rolling it back with
ReverseAccountUTXOs plus the checkpoint reset, under an unchanged
control-program registry, restores the UTXO store and the checkpoint
exactly: the same keys with the same byte content. -/
theorem applyBlock_rollbackBlock_round_trip
    (m : Manager) (b : Block) (w : WalletInfo) (db : Store)
    (hprev : b.previousBlockHash = w.hash)
    (hheight : b.height = w.height + 1)
    (hfresh : ∀ oid ∈ createdEntryIds b, db (utxoKey oid) = none)
    (hspent : ∀ tx ∈ b.transactions, ∀ sp ∈ tx.inputs.filterMap id,
      sp.spentOutputId ∉ createdEntryIds b →
      db (utxoKey sp.spentOutputId) = spentUpsertVal m sp)
    (hwk : db walletkey = some (encodeWalletInfo w)) :
    rollbackBlock m b (applyBlock m b (w, db)) = (w, db) := by
  have h1 : b.height - 1 = w.height := by omega
  have hw : (⟨b.height - 1, b.previousBlockHash⟩ : WalletInfo) = w := by
    rw [h1, hprev]
  simp only [rollbackBlock, applyBlock]
  rw [hw, Prod.mk.injEq]
  refine ⟨rfl, ?_⟩
  funext k
  rw [applyBatch_eq_lastWrite, applyBatch_eq_lastWrite]
  by_cases hkw : k = walletkey
  · subst hkw
    rw [lastWrite_append_wset_self]
    exact hwk.symm
  · rw [lastWrite_append_wset k _ _ hkw, lastWrite_append_wset k _ _ hkw]
    simp only [ReverseAccountUTXOs, BuildAccountUTXOs]
    rw [lastWrite_append, lastWrite_append]
    by_cases hkC : k ∈ (createdEntryIds b).map utxoKey
    · obtain ⟨oid, hoid, rfl⟩ := List.mem_map.mp hkC
      rw [lastWrite_map_del, if_pos hkC]
      exact (hfresh oid hoid).symm
    · have hdelNew : lastWrite k
          ((createdEntryIds b).map fun oid => Op.del (accountUTXOKey (hashBytes oid))) =
          none := by
        rw [lastWrite_map_del, if_neg hkC]
      rw [hdelNew]
      have hins : lastWrite k
          (upsertConfirmedAccountOutputs (loadAccountInfo m (createdRawOutputs b))) =
          none := by
        apply lastWrite_upsert_none
        intro ao hao hk
        exact hkC (List.mem_map.mpr ⟨ao.raw.OutputID, build_ins_key hao, hk⟩)
      by_cases hkS : k ∈ (prevoutDBKeys b.transactions).map utxoKey
      · obtain ⟨oid, hoidS, rfl⟩ := List.mem_map.mp hkS
        have hoidC : oid ∉ createdEntryIds b :=
          fun h => hkC (List.mem_map.mpr ⟨oid, h, rfl⟩)
        cases hdb : db (utxoKey oid) with
        | some v =>
          obtain ⟨tx0, htx0, sp0, hsp0, hid0⟩ := mem_prevoutDBKeys.mp hoidS
          have hval0 : spentUpsertVal m sp0 = some v := by
            have hs := hspent tx0 htx0 sp0 (mem_filterMap_id.mpr hsp0)
              (by rw [hid0]; exact hoidC)
            rw [hid0, hdb] at hs
            exact hs.symm
          obtain ⟨ao0, hao0, hkey0, hval0v⟩ := resurrect_elem_exists htx0 hsp0 hval0
          have hres : lastWrite (utxoKey oid)
              (upsertConfirmedAccountOutputs (loadAccountInfo m (spentRawOutputs b))) =
              some (some v) := by
            apply lastWrite_upsert_some
            · exact ⟨ao0, hao0, by rw [hkey0, hid0]⟩
            · intro ao hao hk
              obtain ⟨tx2, htx2, sp2, hsp2, hid2, hval2⟩ := resurrect_elem_spec hao
              have hido : sp2.spentOutputId = oid := by
                rw [← hid2]
                exact utxoKey_inj hk
              have hs2 := hspent tx2 htx2 sp2 (mem_filterMap_id.mpr hsp2)
                (by rw [hido]; exact hoidC)
              rw [hido, hdb, hval2] at hs2
              exact (Option.some.inj hs2).symm
          rw [hres]
        | none =>
          have hres : lastWrite (utxoKey oid)
              (upsertConfirmedAccountOutputs (loadAccountInfo m (spentRawOutputs b))) =
              none := by
            apply lastWrite_upsert_none
            intro ao hao hk
            obtain ⟨tx2, htx2, sp2, hsp2, hid2, hval2⟩ := resurrect_elem_spec hao
            have hido : sp2.spentOutputId = oid := by
              rw [← hid2]
              exact utxoKey_inj hk
            have hs2 := hspent tx2 htx2 sp2 (mem_filterMap_id.mpr hsp2)
              (by rw [hido]; exact hoidC)
            rw [hido, hdb, hval2] at hs2
            exact Option.noConfusion hs2
          rw [hres, hins, lastWrite_map_del, if_pos hkS]
      · have hres : lastWrite k
            (upsertConfirmedAccountOutputs (loadAccountInfo m (spentRawOutputs b))) =
            none := by
          apply lastWrite_upsert_none
          intro ao hao hk
          obtain ⟨tx2, htx2, sp2, hsp2, hid2, _⟩ := resurrect_elem_spec hao
          apply hkS
          refine List.mem_map.mpr ⟨sp2.spentOutputId, ?_, by rw [← hid2, hk]⟩
          exact mem_prevoutDBKeys.mpr ⟨tx2, htx2, sp2, hsp2, rfl⟩
        have hdel : lastWrite k
            ((prevoutDBKeys b.transactions).map fun oid =>
              Op.del (accountUTXOKey (hashBytes oid))) = none := by
          rw [lastWrite_map_del, if_neg hkS]
        rw [hres, hins, hdel]

/-! ## Checkpoint load (GetWalletInfo, NewWallet) -/

/-- GetWalletInfoResult is the observable outcome of one GetWalletInfo
call: the WalletInfo value the function returns, the receiver wallet's
embedded WalletInfo after the call, and whether an error was returned. -/
structure GetWalletInfoResult where
  info : WalletInfo
  wallet : WalletInfo
  errored : Bool
deriving DecidableEq

/-- GetWalletInfo models indexer.go lines 65-79.  The local variable
info is declared zero and never assigned, so the returned WalletInfo is
the zero value on every path; json.Unmarshal is called with the address
of the receiver pointer, so on a successful parse the stored record
lands in the receiver's embedded WalletInfo fields instead, and on a
missing record or a parse failure the receiver is left unchanged. -/
def GetWalletInfo (db : Store) (w : WalletInfo) : GetWalletInfoResult :=
  match db walletkey with
  | none => ⟨⟨0, 0⟩, w, false⟩
  | some raw =>
    match decodeWalletInfo raw with
    | none => ⟨⟨0, 0⟩, w, true⟩
    | some i => ⟨⟨0, 0⟩, i, false⟩

/-- NewWallet models indexer.go lines 44-56: it builds a zero wallet,
calls GetWalletInfo (logging a warning when it errors), and then
assigns the returned value's Height and Hash onto the wallet,
overwriting whatever the call wrote into the receiver.  The result is
the wallet's final embedded WalletInfo. -/
def NewWallet (db : Store) : WalletInfo :=
  let r := GetWalletInfo db ⟨0, 0⟩
  ⟨r.info.height, r.info.hash⟩

/-! ## The synchronization loop (WalletUpdate) -/

/-- Env is the external interface one WalletUpdate pass consumes: the
chain membership test, block fetch by hash, block fetch by height (the
first call, whose error is discarded), block fetch by height after the
BlockWaiter suspension (none models an error return), and whether
json.Marshal of a checkpoint succeeds (commitWalletInfo's only failure
point; in the real code it cannot fail, but the spec describes the
failure path, so it is modelled). -/
structure Env where
  inMainChain : Nat → Nat → Bool
  getBlockByHash : Nat → Option Block
  getBlockByHeight : Nat → Option Block
  getBlockByHeightRetry : Nat → Option Block
  marshalWalletInfoOK : WalletInfo → Bool

/-- SyncState is the mutable state a pass carries: the in-memory wallet
checkpoint, the shared batch (created once per WalletUpdate call and
never cleared), and the persisted store. -/
structure SyncState where
  wallet : WalletInfo
  batch : Batch
  db : Store

/-- CommitResult is the outcome of one commitWalletInfo call. -/
structure CommitResult where
  db : Store
  batch : Batch
  committed : Bool

/-- commitWalletInfo models indexer.go lines 134-149: marshal the
checkpoint, and on success stage it into the batch and write the whole
batch; on marshal failure log and return without staging or writing. -/
def commitWalletInfo (env : Env) (w : WalletInfo) (batch : Batch) (db : Store) :
    CommitResult :=
  if env.marshalWalletInfoOK w then
    let b2 := batch ++ [Op.set walletkey (encodeWalletInfo w)]
    ⟨applyBatch db b2, b2, true⟩
  else ⟨db, batch, false⟩

/-- RollbackResult is the outcome of the reconciliation loop: the loop
exhausted its fuel, aborted on a failed GetBlockByHash, or reached a
checkpoint on the main chain. -/
inductive RollbackResult where
  | outOfFuel
  | failed (w : WalletInfo) (batch : Batch)
  | handled (w : WalletInfo) (batch : Batch)

/-- rollbackPhase models the reconciliation loop of WalletUpdate
(indexer.go lines 90-103): while the checkpoint is not on the main
chain, fetch the checkpoint block by hash (returning from WalletUpdate
on error), stage its reversal, and step the in-memory checkpoint to the
parent.  Fuel bounds the walk; the real loop is bounded by the chain
being finite. -/
def rollbackPhase (env : Env) (m : Manager) :
    Nat → WalletInfo → Batch → RollbackResult
  | 0, _, _ => RollbackResult.outOfFuel
  | fuel + 1, w, batch =>
    if env.inMainChain w.height w.hash then RollbackResult.handled w batch
    else
      match env.getBlockByHash w.hash with
      | none => RollbackResult.failed w batch
      | some blk =>
        rollbackPhase env m fuel ⟨blk.height - 1, blk.previousBlockHash⟩
          (batch ++ ReverseAccountUTXOs m blk)

/-- IterOutcome is how one trip from the LOOP label back to the goto (or
out of the function) ends: fuel ran out in reconciliation, WalletUpdate
returned from the rollback fetch error, WalletUpdate returned from the
post-wait height fetch error, or control reached the goto.  commits
lists the store states each successful batch write left behind, in
order. -/
inductive IterOutcome where
  | fuelOut
  | abortRollback (s : SyncState)
  | abortFetch (s : SyncState) (commits : List Store)
  | loopNext (s : SyncState) (commits : List Store)

/-- commitsOf lists the store state a commit published, if it did. -/
def commitsOf (c : CommitResult) : List Store :=
  if c.committed then [c.db] else []

/-- forwardApply models indexer.go lines 119-131: with a fetched block
in hand, advance the in-memory checkpoint and stage BuildAccountUTXOs
and a commit exactly when the block's previousBlockHash equals the
reconciled checkpoint's hash; otherwise change nothing and reach the
goto so the next trip re-enters reconciliation. -/
def forwardApply (env : Env) (m : Manager) (w : WalletInfo) (c1 : CommitResult)
    (blk : Block) : IterOutcome :=
  if blk.previousBlockHash = w.hash then
    let w2 : WalletInfo := ⟨blk.height, blk.hashSelf⟩
    let c2 := commitWalletInfo env w2 (c1.batch ++ BuildAccountUTXOs m blk) c1.db
    IterOutcome.loopNext ⟨w2, c2.batch, c2.db⟩ (commitsOf c1 ++ commitsOf c2)
  else IterOutcome.loopNext ⟨w, c1.batch, c1.db⟩ (commitsOf c1)

/-- forwardPhase models indexer.go lines 105-131: commit the
reconciliation batch, fetch the next block (discarding the first
call's error), on a nil block wait for its arrival and refetch
(returning from WalletUpdate when that fetch errors), then run the
parent-linkage gate. -/
def forwardPhase (env : Env) (m : Manager) (w : WalletInfo) (batch : Batch)
    (db : Store) : IterOutcome :=
  let c1 := commitWalletInfo env w batch db
  match env.getBlockByHeight (w.height + 1) with
  | some blk => forwardApply env m w c1 blk
  | none =>
    match env.getBlockByHeightRetry (w.height + 1) with
    | none => IterOutcome.abortFetch ⟨w, c1.batch, c1.db⟩ (commitsOf c1)
    | some blk => forwardApply env m w c1 blk

/-- walletUpdateIter is one trip of WalletUpdate from the LOOP label to
the goto or to a return (indexer.go lines 82-132): reconciliation, the
reconciliation commit, the next-block fetch, and the parent-linkage
gated forward application. -/
def walletUpdateIter (env : Env) (m : Manager) (fuel : Nat) (s : SyncState) :
    IterOutcome :=
  match rollbackPhase env m fuel s.wallet s.batch with
  | RollbackResult.outOfFuel => IterOutcome.fuelOut
  | RollbackResult.failed w b => IterOutcome.abortRollback ⟨w, b, s.db⟩
  | RollbackResult.handled w b => forwardPhase env m w b s.db

/-- fetchNext is the block the pass ends up holding after the fetch,
wait, refetch sequence: the first fetch when it returns a block, else
the post-wait fetch. -/
def fetchNext (env : Env) (h : Nat) : Option Block :=
  match env.getBlockByHeight h with
  | some blk => some blk
  | none => env.getBlockByHeightRetry h

/-! ## Multisig parameter checks (protocol/vm/vmutil/script.go) -/

/-- MultiSigErr enumerates the error details checkMultiSigParams can
attach to ErrBadValue (script.go lines 106-120). -/
inductive MultiSigErr where
  | negQuorum
  | negPubkeyCount
  | quorumTooBig
  | emptyQuorumNonEmptyList
deriving DecidableEq

/-- checkMultiSigParams models script.go lines 106-120: the first
failing check wins; none means the parameters are accepted. -/
def checkMultiSigParams (nrequired npubkeys : Int) : Option MultiSigErr :=
  if nrequired < 0 then some MultiSigErr.negQuorum
  else if npubkeys < 0 then some MultiSigErr.negPubkeyCount
  else if nrequired > npubkeys then some MultiSigErr.quorumTooBig
  else if nrequired = 0 ∧ npubkeys > 0 then some MultiSigErr.emptyQuorumNonEmptyList
  else none

/-- PublicKey models an ed25519 public key as opaque bytes. -/
abbrev PublicKey := Bytes

/-- addP2SPMultiSigCheck is the parameter gate of addP2SPMultiSig
(script.go lines 20-23): checkMultiSigParams applied to the quorum and
the key count, the only error source of the builder path; the opcode
emission that follows on the nil path is outside this package's scope
(the Builder lives in builder.go). -/
def addP2SPMultiSigCheck (pubkeys : List PublicKey) (nrequired : Int) :
    Option MultiSigErr :=
  checkMultiSigParams nrequired (Int.ofNat pubkeys.length)

/-- P2SPMultiSigProgramErr is the error result of P2SPMultiSigProgram
(script.go lines 56-62): it fails exactly when addP2SPMultiSig's
parameter check fails. -/
def P2SPMultiSigProgramErr (pubkeys : List PublicKey) (nrequired : Int) :
    Option MultiSigErr :=
  addP2SPMultiSigCheck pubkeys nrequired

/-! ## Concrete example chain data -/

/-- progEx is a watched control program. -/
def progEx : Bytes := [7]

/-- cpEx is its registry record. -/
def cpEx : controlProgram := ⟨"a1", 3, false⟩

/-- mEx is a manager whose registry knows progEx and whose account
database contains the account a1. -/
def mEx : Manager :=
  ⟨fun pb => if pb = progEx then some cpEx else none, fun aid => aid == "a1"⟩

/-- eEx is the resolved output entry of the example output 101. -/
def eEx : OutputEntry := ⟨5, 100, progEx, 77, 0, 9⟩

/-- txEx1 creates output 101 under progEx from an issuance input. -/
def txEx1 : Tx := ⟨11, [none], [⟨5, 100, progEx, 101, some eEx⟩]⟩

/-- txEx2 spends output 101 in the same block. -/
def txEx2 : Tx := ⟨12, [some ⟨101, some eEx⟩], []⟩

/-- blockEx is a height-1 block on parent 900 that creates output 101
and then spends it within the same block. -/
def blockEx : Block := ⟨1, 900, 901, [txEx1, txEx2]⟩

/-- envEx1 is a chain whose main chain holds (0, 900) and serves
blockEx at height 1; marshalling always succeeds. -/
def envEx1 : Env :=
  ⟨fun h hs => h == 0 && hs == 900, fun _ => none,
   fun h => if h = 1 then some blockEx else none, fun _ => none, fun _ => true⟩

/-- stEx1 is the pass state at checkpoint (0, 900) over an empty store. -/
def stEx1 : SyncState := ⟨⟨0, 900⟩, [], fun _ => none⟩

/-- C1: evaluation of WalletUpdate at the failing input.  One iteration
from checkpoint (0, 900) applies blockEx, which creates output 101 to a
registered account and spends it within the same block; the claimed
invariant requires the committed store not to contain a record for 101
(created and spent at or below the new checkpoint), but BuildAccountUTXOs
stages every spent-output delete before every created-output insert, so
after the forward commit the record for 101 is present: the iteration
reaches the goto with checkpoint (1, 901), two commits, and the key
ACU:101 still bound. -/
theorem WalletUpdate_commit_keeps_intrablock_spent_output :
    (match walletUpdateIter envEx1 mEx 1 stEx1 with
     | IterOutcome.loopNext s2 commits =>
        some ((s2.db (utxoKey 101)).isSome, s2.wallet, commits.length)
     | _ => none) = some (true, ⟨1, 901⟩, 2) ∧
    101 ∈ prevoutDBKeys blockEx.transactions ∧
    101 ∈ createdEntryIds blockEx ∧
    (mEx.cpRegistry progEx).isSome = true ∧
    mEx.accountExists cpEx.accountID = true := by
  decide

/-- dbEx4 is a store holding a valid checkpoint record (5, 77). -/
def dbEx4 : Store :=
  fun k => if k = walletkey then some (encodeWalletInfo ⟨5, 77⟩) else none

/-- C4: evaluation of the checkpoint load at the failing input.  The
store holds a deserializable checkpoint record (5, 77), yet
GetWalletInfo returns the zero WalletInfo (the parse lands in the
receiver, shown by the wallet component, while the returned local stays
zero), and NewWallet, which overwrites the wallet with the returned
value, ends at the zero checkpoint instead of (5, 77). -/
theorem GetWalletInfo_returns_zero_info :
    decodeWalletInfo (encodeWalletInfo ⟨5, 77⟩) = some ⟨5, 77⟩ ∧
    GetWalletInfo dbEx4 ⟨0, 0⟩ = ⟨⟨0, 0⟩, ⟨5, 77⟩, false⟩ ∧
    NewWallet dbEx4 = ⟨0, 0⟩ := by
  decide

/-! ## Annotation filter, retirement exclusion, key separation -/

/-- C5: loadAccountInfo returns exactly the outputs whose control
program has a registry record and whose recorded account still exists
locally, each annotated with that record's account id, key index and
change flag; every other output is dropped, and there is no error
channel, so outputs with an unregistered program never reach the UTXO
store. -/
theorem loadAccountInfo_exactly_registered (m : Manager) (outs : List rawOutput)
    (ao : accountOutput) :
    ao ∈ loadAccountInfo m outs ↔
      ∃ out ∈ outs, ∃ cp : controlProgram,
        m.cpRegistry out.ControlProgram = some cp ∧
        m.accountExists cp.accountID = true ∧
        ao = ⟨out, cp.accountID, cp.keyIndex, cp.change⟩ :=
  loadAccountInfo_spec

/-- C5 witness: the example output under the registered program progEx
is annotated with account a1, key index 3, change false. -/
theorem loadAccountInfo_exactly_registered_witness :
    (⟨⟨101, 5, 100, progEx, 11, 0, 77, 0, 9⟩, "a1", 3, false⟩ : accountOutput) ∈
      loadAccountInfo mEx [⟨101, 5, 100, progEx, 11, 0, 77, 0, 9⟩] :=
  (loadAccountInfo_exactly_registered mEx _ _).mpr
    ⟨⟨101, 5, 100, progEx, 11, 0, 77, 0, 9⟩, by decide, cpEx, by decide, by decide, by decide⟩

theorem accountUTXOKey_ne_walletkey (name : Bytes) :
    accountUTXOKey name ≠ walletkey := by
  intro h
  simp [accountUTXOKey, UTXOPreFix, walletkey] at h

theorem buildOps_key {m : Manager} {b : Block} {op : Op}
    (h : op ∈ BuildAccountUTXOs m b) : ∃ x : Bytes, opDomKey op = accountUTXOKey x := by
  rcases List.mem_append.mp h with h | h
  · obtain ⟨oid, _, rfl⟩ := List.mem_map.mp h
    exact ⟨hashBytes oid, rfl⟩
  · obtain ⟨ao, _, rfl⟩ := List.mem_map.mp h
    exact ⟨(mkUTXO ao).OutputID, rfl⟩

theorem reverseOps_key {m : Manager} {b : Block} {op : Op}
    (h : op ∈ ReverseAccountUTXOs m b) : ∃ x : Bytes, opDomKey op = accountUTXOKey x := by
  rcases List.mem_append.mp h with h | h
  · obtain ⟨ao, _, rfl⟩ := List.mem_map.mp h
    exact ⟨(mkUTXO ao).OutputID, rfl⟩
  · obtain ⟨oid, _, rfl⟩ := List.mem_map.mp h
    exact ⟨hashBytes oid, rfl⟩

/-- C8: forward application stages a UTXO set only for outputs whose
result entry resolves to a spendable bc.Output (retirement outputs are
never written), and rollback stages its created-output deletes only for
such outputs as well (retirement entries are skipped). -/
theorem build_reverse_skip_retirement :
    (∀ (m : Manager) (b : Block) (k v : Bytes),
       Op.set k v ∈ BuildAccountUTXOs m b →
       ∃ tx ∈ b.transactions, ∃ out ∈ tx.outputs,
         out.resEntry.isSome = true ∧ k = utxoKey out.resultId) ∧
    (∀ (m : Manager) (b : Block) (k : Bytes),
       Op.del k ∈ ReverseAccountUTXOs m b →
       ∃ tx ∈ b.transactions, ∃ out ∈ tx.outputs,
         out.resEntry.isSome = true ∧ k = utxoKey out.resultId) := by
  constructor
  · intro m b k v h
    rcases List.mem_append.mp h with h | h
    · obtain ⟨oid, _, heq⟩ := List.mem_map.mp h
      exact absurd heq (by simp)
    · obtain ⟨ao, hao, heq⟩ := List.mem_map.mp h
      obtain ⟨out0, hout0, cp, _, _, rfl⟩ := loadAccountInfo_spec.mp hao
      obtain ⟨tx, htx, out, hout, e, he, hid, _⟩ := createdRawOutputs_mem hout0
      refine ⟨tx, htx, out, hout, by simp [he], ?_⟩
      have hk : k = accountUTXOKey (mkUTXO (annotateOut out0 cp)).OutputID := by
        cases heq
        rfl
      rw [hk]
      show utxoKey out0.OutputID = utxoKey out.resultId
      rw [hid]
  · intro m b k h
    rcases List.mem_append.mp h with h | h
    · obtain ⟨ao, _, heq⟩ := List.mem_map.mp h
      exact absurd heq (by simp)
    · obtain ⟨oid, hoid, heq⟩ := List.mem_map.mp h
      obtain ⟨tx, htx, out, hout, he, hid⟩ := mem_createdEntryIds.mp hoid
      refine ⟨tx, htx, out, hout, he, ?_⟩
      have hk : k = accountUTXOKey (hashBytes oid) := by
        cases heq
        rfl
      rw [hk]
      show utxoKey oid = utxoKey out.resultId
      rw [hid]

/-- C8 witness: the rollback of blockEx stages a delete for the created
output 101, whose entry resolves to a bc.Output. -/
theorem build_reverse_skip_retirement_witness :
    (Op.del (utxoKey 101) ∈ ReverseAccountUTXOs mEx blockEx) ∧
    (∃ tx ∈ blockEx.transactions, ∃ out ∈ tx.outputs,
       out.resEntry.isSome = true ∧ utxoKey 101 = utxoKey out.resultId) :=
  ⟨by decide, build_reverse_skip_retirement.2 mEx blockEx (utxoKey 101) (by decide)⟩

/-- C9: every UTXO record key carries the four-byte ACU: namespace and
differs from the checkpoint key walletInfo, so staging UTXO creates or
deletes never touches the checkpoint record and staging the checkpoint
never touches a UTXO record. -/
theorem utxo_checkpoint_key_separation :
    (∀ name : Bytes, accountUTXOKey name ≠ walletkey) ∧
    (∀ name : Bytes, (accountUTXOKey name).take 4 = UTXOPreFix) ∧
    (∀ (m : Manager) (b : Block) (db : Store),
       applyBatch db (BuildAccountUTXOs m b) walletkey = db walletkey) ∧
    (∀ (m : Manager) (b : Block) (db : Store),
       applyBatch db (ReverseAccountUTXOs m b) walletkey = db walletkey) ∧
    (∀ (db : Store) (v name : Bytes),
       applyOp db (Op.set walletkey v) (accountUTXOKey name) = db (accountUTXOKey name)) := by
  refine ⟨accountUTXOKey_ne_walletkey, fun name => rfl, ?_, ?_, ?_⟩
  · intro m b db
    rw [applyBatch_eq_lastWrite, lastWrite_eq_none_of_keys]
    intro op hop
    obtain ⟨x, hx⟩ := buildOps_key hop
    rw [hx]
    exact accountUTXOKey_ne_walletkey x
  · intro m b db
    rw [applyBatch_eq_lastWrite, lastWrite_eq_none_of_keys]
    intro op hop
    obtain ⟨x, hx⟩ := reverseOps_key hop
    rw [hx]
    exact accountUTXOKey_ne_walletkey x
  · intro db v name
    simp only [applyOp]
    rw [if_neg (accountUTXOKey_ne_walletkey name)]

/-- C9 witness: the key of output id 5 is distinct from the checkpoint
key. -/
theorem utxo_checkpoint_key_separation_witness :
    accountUTXOKey (hashBytes 5) ≠ walletkey :=
  utxo_checkpoint_key_separation.1 (hashBytes 5)

/-- C10: checkMultiSigParams errors exactly on a negative quorum, a
negative key count, a quorum above the key count, or a zero quorum with
a non-empty key list; P2SPMultiSigProgram rejects exactly those
combinations at its parameter check, and accepts the single zero-quorum
case with an empty key list. -/
theorem checkMultiSigParams_error_iff :
    (∀ nrequired npubkeys : Int,
       (checkMultiSigParams nrequired npubkeys).isSome = true ↔
         (nrequired < 0 ∨ npubkeys < 0 ∨ nrequired > npubkeys ∨
          (nrequired = 0 ∧ npubkeys > 0))) ∧
    (∀ (pubkeys : List PublicKey) (nrequired : Int),
       (P2SPMultiSigProgramErr pubkeys nrequired).isSome = true ↔
         (nrequired < 0 ∨ nrequired > (pubkeys.length : Int) ∨
          (nrequired = 0 ∧ 0 < pubkeys.length))) ∧
    P2SPMultiSigProgramErr [] 0 = none := by
  refine ⟨?_, ?_, by decide⟩
  · intro n p
    unfold checkMultiSigParams
    split_ifs with h1 h2 h3 h4 <;> simp <;> omega
  · intro pubkeys n
    unfold P2SPMultiSigProgramErr addP2SPMultiSigCheck checkMultiSigParams
    simp only [Int.ofNat_eq_coe]
    split_ifs with h1 h2 h3 h4 <;> simp
    any_goals omega
    exact ⟨by omega, by omega, fun hn => List.length_eq_zero.mp (by omega)⟩

/-- C10 witness: a negative quorum is rejected. -/
theorem checkMultiSigParams_error_iff_witness :
    (checkMultiSigParams (-1) 0).isSome = true :=
  (checkMultiSigParams_error_iff.1 (-1) 0).mpr (Or.inl (by decide))

/-! ## Behavior of one synchronization pass -/

theorem fetchNext_eq_of_height (env : Env) (h : Nat) (blk : Block)
    (h1 : env.getBlockByHeight h = some blk) : fetchNext env h = some blk := by
  unfold fetchNext
  rw [h1]

theorem fetchNext_eq_of_retry (env : Env) (h : Nat)
    (h1 : env.getBlockByHeight h = none) :
    fetchNext env h = env.getBlockByHeightRetry h := by
  unfold fetchNext
  rw [h1]

theorem forwardPhase_eq (env : Env) (m : Manager) (w : WalletInfo) (batch : Batch)
    (db : Store) (blk : Block) (hf : fetchNext env (w.height + 1) = some blk) :
    forwardPhase env m w batch db =
      forwardApply env m w (commitWalletInfo env w batch db) blk := by
  unfold forwardPhase
  cases h1 : env.getBlockByHeight (w.height + 1) with
  | some blk2 =>
    have h2 := fetchNext_eq_of_height env _ blk2 h1
    rw [hf] at h2
    cases h2
    rfl
  | none =>
    have h2 := fetchNext_eq_of_retry env _ h1
    rw [hf] at h2
    rw [← h2]

/-- C3: the parent-linkage gate.  First, reaching a reconciled
checkpoint hands control to the forward phase.  Second, when the
fetched block's previousBlockHash differs from the reconciled
checkpoint's hash, the pass changes nothing beyond the reconciliation
commit: the checkpoint stays, no block ops are staged, no further
commit happens, and control reaches the goto so reconciliation is
re-entered without consuming the block.  Third, whenever the pass
reaches the goto with a changed checkpoint, the fetched block's
previousBlockHash equals the pre-advance checkpoint hash and the
checkpoint now names that block. -/
theorem WalletUpdate_parent_linkage_gate :
    (∀ (env : Env) (m : Manager) (fuel : Nat) (s : SyncState)
       (w1 : WalletInfo) (bb : Batch),
       rollbackPhase env m fuel s.wallet s.batch = RollbackResult.handled w1 bb →
       walletUpdateIter env m fuel s = forwardPhase env m w1 bb s.db) ∧
    (∀ (env : Env) (m : Manager) (w : WalletInfo) (batch : Batch) (db : Store)
       (blk : Block),
       fetchNext env (w.height + 1) = some blk →
       blk.previousBlockHash ≠ w.hash →
       forwardPhase env m w batch db =
         IterOutcome.loopNext
           ⟨w, (commitWalletInfo env w batch db).batch,
            (commitWalletInfo env w batch db).db⟩
           (commitsOf (commitWalletInfo env w batch db))) ∧
    (∀ (env : Env) (m : Manager) (w : WalletInfo) (batch : Batch) (db : Store)
       (blk : Block) (s2 : SyncState) (commits : List Store),
       fetchNext env (w.height + 1) = some blk →
       forwardPhase env m w batch db = IterOutcome.loopNext s2 commits →
       s2.wallet = w ∨
         (blk.previousBlockHash = w.hash ∧ s2.wallet = ⟨blk.height, blk.hashSelf⟩)) := by
  refine ⟨?_, ?_, ?_⟩
  · intro env m fuel s w1 bb h
    unfold walletUpdateIter
    rw [h]
  · intro env m w batch db blk hf hne
    rw [forwardPhase_eq env m w batch db blk hf]
    unfold forwardApply
    rw [if_neg hne]
  · intro env m w batch db blk s2 commits hf heq
    rw [forwardPhase_eq env m w batch db blk hf] at heq
    unfold forwardApply at heq
    by_cases hb : blk.previousBlockHash = w.hash
    · rw [if_pos hb] at heq
      cases heq
      exact Or.inr ⟨hb, rfl⟩
    · rw [if_neg hb] at heq
      cases heq
      exact Or.inl rfl

/-- C3 witness: at checkpoint (0, 555) the fetched block's parent hash
900 differs, so the forward phase leaves the checkpoint and the store
at the reconciliation commit and loops. -/
theorem WalletUpdate_parent_linkage_gate_witness :
    forwardPhase envEx1 mEx ⟨0, 555⟩ [] (fun _ => none) =
      IterOutcome.loopNext
        ⟨⟨0, 555⟩, (commitWalletInfo envEx1 ⟨0, 555⟩ [] (fun _ => none)).batch,
         (commitWalletInfo envEx1 ⟨0, 555⟩ [] (fun _ => none)).db⟩
        (commitsOf (commitWalletInfo envEx1 ⟨0, 555⟩ [] (fun _ => none))) :=
  WalletUpdate_parent_linkage_gate.2.1 envEx1 mEx ⟨0, 555⟩ [] (fun _ => none)
    blockEx (by decide) (by decide)

/-- C6: both fetch-failure paths return from WalletUpdate with the
persisted store exactly as the last commit left it.  A GetBlockByHash
failure during reconciliation returns before any commit of the pass, so
the store is the state the pass started from, with the staged reversal
ops left unwritten in the batch; a GetBlockByHeight failure after the
block wait returns with the store exactly as the reconciliation commit
left it, nothing further staged or written. -/
theorem WalletUpdate_fetch_failure_uncommitted :
    (∀ (env : Env) (m : Manager) (fuel : Nat) (s : SyncState)
       (w : WalletInfo) (bb : Batch),
       rollbackPhase env m fuel s.wallet s.batch = RollbackResult.failed w bb →
       walletUpdateIter env m fuel s = IterOutcome.abortRollback ⟨w, bb, s.db⟩) ∧
    (∀ (env : Env) (m : Manager) (w : WalletInfo) (batch : Batch) (db : Store),
       env.getBlockByHeight (w.height + 1) = none →
       env.getBlockByHeightRetry (w.height + 1) = none →
       forwardPhase env m w batch db =
         IterOutcome.abortFetch
           ⟨w, (commitWalletInfo env w batch db).batch,
            (commitWalletInfo env w batch db).db⟩
           (commitsOf (commitWalletInfo env w batch db))) := by
  constructor
  · intro env m fuel s w bb h
    unfold walletUpdateIter
    rw [h]
  · intro env m w batch db h1 h2
    unfold forwardPhase
    rw [h1, h2]

/-- envEx6 serves no block at any height. -/
def envEx6 : Env :=
  ⟨fun _ _ => true, fun _ => none, fun _ => none, fun _ => none, fun _ => true⟩

/-- C6 witness: with both height fetches failing, the pass aborts with
the store exactly as the reconciliation commit left it. -/
theorem WalletUpdate_fetch_failure_uncommitted_witness :
    forwardPhase envEx6 mEx ⟨0, 900⟩ [] (fun _ => none) =
      IterOutcome.abortFetch
        ⟨⟨0, 900⟩, (commitWalletInfo envEx6 ⟨0, 900⟩ [] (fun _ => none)).batch,
         (commitWalletInfo envEx6 ⟨0, 900⟩ [] (fun _ => none)).db⟩
        (commitsOf (commitWalletInfo envEx6 ⟨0, 900⟩ [] (fun _ => none))) :=
  WalletUpdate_fetch_failure_uncommitted.2 envEx6 mEx ⟨0, 900⟩ [] (fun _ => none)
    rfl rfl

/-! ## Commit serialization failure (C7) -/

/-- envEx7 has a main chain at every position, serves blockEx at height
1, and fails every checkpoint marshal. -/
def envEx7 : Env :=
  ⟨fun _ _ => true, fun _ => none,
   fun h => if h = 1 then some blockEx else none, fun _ => none, fun _ => false⟩

/-- stEx7 is the pass state at checkpoint (0, 900) over an empty store. -/
def stEx7 : SyncState := ⟨⟨0, 900⟩, [], fun _ => none⟩

/-- C7 counterexample: with every checkpoint marshal failing, the
iteration from (0, 900) skips both commits yet still advances the
in-memory checkpoint to (1, 901), stages the block's ops, and reaches
the goto: the outcome is loopNext with zero commits, not a return, so
the synchronization pass is not aborted as the claim states. -/
theorem commitWalletInfo_failure_pass_continues :
    envEx7.marshalWalletInfoOK ⟨0, 900⟩ = false ∧
    envEx7.marshalWalletInfoOK ⟨1, 901⟩ = false ∧
    (match walletUpdateIter envEx7 mEx 1 stEx7 with
     | IterOutcome.loopNext s2 commits => some (s2.wallet, commits.length)
     | _ => none) = some (⟨1, 901⟩, 0) := by
  decide

/-- C7 amended: when the checkpoint marshal fails, that commit is
skipped entirely — the batch is not written and not extended, so
neither the checkpoint nor any staged UTXO delta becomes visible at
that commit — but the synchronization pass is not aborted: WalletUpdate
continues, and with a linking block in hand it advances the in-memory
checkpoint, stages the block's ops onto the same batch, and attempts
the next commit. -/
theorem commitWalletInfo_failure_skips_commit_only :
    (∀ (env : Env) (w : WalletInfo) (batch : Batch) (db : Store),
       env.marshalWalletInfoOK w = false →
       commitWalletInfo env w batch db = ⟨db, batch, false⟩) ∧
    (∀ (env : Env) (m : Manager) (w : WalletInfo) (batch : Batch) (db : Store)
       (blk : Block),
       env.marshalWalletInfoOK w = false →
       fetchNext env (w.height + 1) = some blk →
       blk.previousBlockHash = w.hash →
       forwardPhase env m w batch db =
         IterOutcome.loopNext
           ⟨⟨blk.height, blk.hashSelf⟩,
            (commitWalletInfo env ⟨blk.height, blk.hashSelf⟩
              (batch ++ BuildAccountUTXOs m blk) db).batch,
            (commitWalletInfo env ⟨blk.height, blk.hashSelf⟩
              (batch ++ BuildAccountUTXOs m blk) db).db⟩
           (commitsOf (commitWalletInfo env ⟨blk.height, blk.hashSelf⟩
              (batch ++ BuildAccountUTXOs m blk) db))) := by
  constructor
  · intro env w batch db hm
    simp [commitWalletInfo, hm]
  · intro env m w batch db blk hm hf hb
    rw [forwardPhase_eq env m w batch db blk hf]
    have hc1 : commitWalletInfo env w batch db = ⟨db, batch, false⟩ := by
      simp [commitWalletInfo, hm]
    unfold forwardApply
    rw [if_pos hb, hc1]
    simp [commitsOf]

/-- C7 witness for the amended claim: the failing commit at (0, 900)
passes the store and batch through, and the pass continues into the
forward application of blockEx. -/
theorem commitWalletInfo_failure_skips_commit_only_witness :
    commitWalletInfo envEx7 ⟨0, 900⟩ [] (fun _ => none) =
      ⟨(fun _ => none), [], false⟩ ∧
    forwardPhase envEx7 mEx ⟨0, 900⟩ [] (fun _ => none) =
      IterOutcome.loopNext
        ⟨⟨blockEx.height, blockEx.hashSelf⟩,
         (commitWalletInfo envEx7 ⟨blockEx.height, blockEx.hashSelf⟩
           ([] ++ BuildAccountUTXOs mEx blockEx) (fun _ => none)).batch,
         (commitWalletInfo envEx7 ⟨blockEx.height, blockEx.hashSelf⟩
           ([] ++ BuildAccountUTXOs mEx blockEx) (fun _ => none)).db⟩
        (commitsOf (commitWalletInfo envEx7 ⟨blockEx.height, blockEx.hashSelf⟩
           ([] ++ BuildAccountUTXOs mEx blockEx) (fun _ => none))) :=
  ⟨commitWalletInfo_failure_skips_commit_only.1 envEx7 ⟨0, 900⟩ [] (fun _ => none) rfl,
   commitWalletInfo_failure_skips_commit_only.2 envEx7 mEx ⟨0, 900⟩ [] (fun _ => none)
     blockEx rfl (by decide) (by decide)⟩

/-! ## C2 witness data -/

/-- eEx2 is the entry of the fresh output 60 created by blockEx2. -/
def eEx2 : OutputEntry := ⟨5, 60, progEx, 78, 0, 9⟩

/-- txEx3 spends the pre-existing output 50 and creates output 60. -/
def txEx3 : Tx := ⟨13, [some ⟨50, some eEx⟩], [⟨5, 60, progEx, 60, some eEx2⟩]⟩

/-- blockEx2 is a clean height-1 block on parent 900. -/
def blockEx2 : Block := ⟨1, 900, 902, [txEx3]⟩

/-- dbEx2 is a store consistent with checkpoint (0, 900): it holds the
checkpoint record and the canonical record of the spent output 50. -/
def dbEx2 : Store := fun k =>
  if k = walletkey then some (encodeWalletInfo ⟨0, 900⟩)
  else if k = utxoKey 50 then spentUpsertVal mEx ⟨50, some eEx⟩
  else none

/-- C2 witness: applying blockEx2 on checkpoint (0, 900) over dbEx2 and
rolling it back restores the pair exactly. -/
theorem applyBlock_rollbackBlock_round_trip_witness :
    (∀ oid ∈ createdEntryIds blockEx2, dbEx2 (utxoKey oid) = none) ∧
    dbEx2 walletkey = some (encodeWalletInfo ⟨0, 900⟩) ∧
    rollbackBlock mEx blockEx2 (applyBlock mEx blockEx2 (⟨0, 900⟩, dbEx2)) =
      (⟨0, 900⟩, dbEx2) :=
  ⟨by decide, by decide,
   applyBlock_rollbackBlock_round_trip mEx blockEx2 ⟨0, 900⟩ dbEx2
     (by decide) (by decide) (by decide) (by decide) (by decide)⟩
